import Mathlib

/-!
Shallow embedding of the benchmark script `benchmark_sqlite_params.py`.

The script creates a table with string columns, generates deterministic
string-valued rows, inserts them with two buffered strategies
(`insert_values_params` and `insert_values_executemany`), checks the stored
row count and the lexicographically last row afterwards
(`check_and_clean`), and clears the table.

Machine integers are modelled as `Nat`/`Int`; the database is modelled as
an explicit state (committed and pending rows); each strategy is modelled
as the trace of statements it sends to the session (flushes and commits),
together with a semantics applying such a trace to a database state.
-/

namespace Bench

/-- Decimal digit character, as produced by Python string formatting. -/
def digitChar (d : Nat) : Char :=
  if d = 0 then '0' else if d = 1 then '1' else if d = 2 then '2'
  else if d = 3 then '3' else if d = 4 then '4' else if d = 5 then '5'
  else if d = 6 then '6' else if d = 7 then '7' else if d = 8 then '8'
  else '9'

/-- Digits of `n` in base 10, most significant first, prepended to `acc`.
Structural fuel; any `fuel > n` gives the digits of `n`. -/
def natDigitsAux : Nat → Nat → List Char → List Char
  | 0, _, acc => acc
  | fuel + 1, n, acc =>
    if n < 10 then digitChar n :: acc
    else natDigitsAux fuel (n / 10) (digitChar (n % 10) :: acc)

/-- Python `str(n)` for a natural number, as a list of characters. -/
def natStr (n : Nat) : List Char := natDigitsAux (n + 1) n []

/-- Python `str(i)` for an integer (used by the f-string in
`check_and_clean`, where `number_of_rows - 1` may be negative). -/
def intStr (i : Int) : String :=
  if i < 0 then "-" ++ String.mk (natStr i.natAbs) else String.mk (natStr i.toNat)

/-- Python zero padding of `n` to minimum total width `width`, i.e. the
f-string directive `0` followed by the width. -/
def pyPad (width n : Nat) : List Char :=
  List.replicate (width - (natStr n).length) '0' ++ natStr n

/-- String version of `pyPad`. -/
def pyPadStr (width n : Nat) : String := String.mk (pyPad width n)

/-- Numeric value of a decimal digit character. -/
def digitVal (c : Char) : Nat := c.toNat - 48

/-- Value of a string of decimal digit characters. -/
def digitsVal (l : List Char) : Nat := l.foldl (fun a c => 10 * a + digitVal c) 0

/-- Pad width used by `benchmark`: one less than the decimal digit count,
i.e. `len(str(n)) - 1`. -/
def pad_of (n : Nat) : Nat := (natStr n).length - 1

/-- Column name generated by `setup_db`: `col` followed by the column index
zero-padded to `col_pad`. -/
def colName (col_pad i : Nat) : String := "col" ++ pyPadStr col_pad i

/-- Declared fixed string width of every column in `setup_db`. -/
def columnWidth (col_pad row_pad : Nat) : Nat := col_pad + row_pad + 8

/-- Schema built by `setup_db`: the ordered list of (column name, declared
width) pairs of the created table. -/
def setup_db (number_of_cols col_pad row_pad : Nat) : List (String × Nat) :=
  (List.range number_of_cols).map
    (fun i => (colName col_pad i, columnWidth col_pad row_pad))

/-- Ordered column names of the created table. -/
def columnNames (number_of_cols col_pad : Nat) : List String :=
  (List.range number_of_cols).map (colName col_pad)

/-- Cell value generated by `benchmark` for row index `r` and column index
`c`: `row` then `r` zero-padded to `row_pad`, then `_col`, then `c`
zero-padded to `col_pad`. -/
def cellValue (row_pad col_pad r c : Nat) : String :=
  "row" ++ pyPadStr row_pad r ++ "_col" ++ pyPadStr col_pad c

/-- Row generation from `benchmark`: one dict per row index `r`, mapping
each column name to the cell value of that row and column, enumerating the
table's columns in order. -/
def generate_rows (number_of_rows : Nat) (columns : List String)
    (row_pad col_pad : Nat) : List (List (String × String)) :=
  (List.range number_of_rows).map (fun r =>
    (List.zip (List.range columns.length) columns).map
      (fun p => (p.2, cellValue row_pad col_pad r p.1)))

/-- Statement sent to the session by an insertion strategy: a multi-row
values-list insert (used by `insert_values_params`), an executemany insert
(used by `insert_values_executemany`), or a transaction commit. -/
inductive Event (α : Type) where
  | flushValues (buf : List α) : Event α
  | flushMany (buf : List α) : Event α
  | commit : Event α
deriving DecidableEq

/-- Loop of `insert_values_params`: append each row to the buffer, flush the
whole buffer as one multi-row values insert whenever its length reaches
`buffer_size`, flush any nonempty remainder after the loop, then commit. -/
def paramsLoop {α : Type} (buffer_size : Int) :
    List α → List α → List (Event α)
  | [], buffer =>
    (if buffer.length > 0 then [Event.flushValues buffer] else []) ++
      [Event.commit]
  | row :: rest, buffer =>
    if ((buffer ++ [row]).length : Int) ≥ buffer_size then
      Event.flushValues (buffer ++ [row]) :: paramsLoop buffer_size rest []
    else
      paramsLoop buffer_size rest (buffer ++ [row])

/-- Trace of statements issued by `insert_values_params`. -/
def insert_values_params {α : Type} (rows : List α) (buffer_size : Int) :
    List (Event α) :=
  paramsLoop buffer_size rows []

/-- Loop of `insert_values_executemany`: identical buffering discipline,
but each flush is an executemany execution of the single insert statement. -/
def manyLoop {α : Type} (buffer_size : Int) :
    List α → List α → List (Event α)
  | [], buffer =>
    (if buffer.length > 0 then [Event.flushMany buffer] else []) ++
      [Event.commit]
  | row :: rest, buffer =>
    if ((buffer ++ [row]).length : Int) ≥ buffer_size then
      Event.flushMany (buffer ++ [row]) :: manyLoop buffer_size rest []
    else
      manyLoop buffer_size rest (buffer ++ [row])

/-- Trace of statements issued by `insert_values_executemany`. -/
def insert_values_executemany {α : Type} (rows : List α) (buffer_size : Int) :
    List (Event α) :=
  manyLoop buffer_size rows []

/-- Replace a values-list flush by an executemany flush carrying the same
rows. -/
def Event.relabel {α : Type} : Event α → Event α
  | .flushValues b => .flushMany b
  | .flushMany b => .flushMany b
  | .commit => .commit

/-- Database state seen by one session: rows already committed and rows
inserted but not yet committed. -/
structure DbState (α : Type) where
  committed : List α
  pending : List α
deriving DecidableEq

/-- Rows visible to queries in the session (its own writes included). -/
def DbState.visible {α : Type} (s : DbState α) : List α :=
  s.committed ++ s.pending

/-- Empty database. -/
def emptyDb {α : Type} : DbState α := ⟨[], []⟩

/-- Effect of one statement on the database state: either flush appends its
rows in order; commit makes all pending rows durable. -/
def applyEvent {α : Type} (s : DbState α) : Event α → DbState α
  | .flushValues buf => ⟨s.committed, s.pending ++ buf⟩
  | .flushMany buf => ⟨s.committed, s.pending ++ buf⟩
  | .commit => ⟨s.committed ++ s.pending, []⟩

/-- Run a trace of statements against a database state. -/
def runEvents {α : Type} (s : DbState α) (evs : List (Event α)) : DbState α :=
  evs.foldl applyEvent s

/-- Database state after one invocation of `insert_values_params`. -/
def runParams {α : Type} (s : DbState α) (rows : List α)
    (buffer_size : Int) : DbState α :=
  runEvents s (insert_values_params rows buffer_size)

/-- Database state after one invocation of `insert_values_executemany`. -/
def runMany {α : Type} (s : DbState α) (rows : List α)
    (buffer_size : Int) : DbState α :=
  runEvents s (insert_values_executemany rows buffer_size)

/-- Database state after `k` invocations of `insert_values_params` on the
same session, as the timing harness performs. -/
def runParamsK {α : Type} : Nat → DbState α → List α → Int → DbState α
  | 0, s, _, _ => s
  | k + 1, s, rows, buffer_size =>
    runParamsK k (runParams s rows buffer_size) rows buffer_size

/-- Database state after `k` invocations of `insert_values_executemany`. -/
def runManyK {α : Type} : Nat → DbState α → List α → Int → DbState α
  | 0, s, _, _ => s
  | k + 1, s, rows, buffer_size =>
    runManyK k (runMany s rows buffer_size) rows buffer_size

/-- Stored tuple of a generated row: its values in table column order, as
persisted by either insert statement. -/
def storedTuple (row : List (String × String)) : List String :=
  row.map Prod.snd

/-- Expected value of the second assertion in `check_and_clean`: the
f-string built from `number_of_rows - 1` and `number_of_cols - 1` with
Python integer subtraction and plain (unpadded) decimal formatting. -/
def expected_last_val (number_of_rows number_of_cols : Nat) : String :=
  "row" ++ intStr ((number_of_rows : Int) - 1) ++ "_col" ++
    intStr ((number_of_cols : Int) - 1)

/-- Lexicographic order on character lists, byte order on each character:
the BINARY collation the store uses to compare string column values. -/
def strLtB : List Char → List Char → Bool
  | [], [] => false
  | [], _ :: _ => true
  | _ :: _, [] => false
  | a :: as, b :: bs =>
    if a.toNat < b.toNat then true
    else if b.toNat < a.toNat then false
    else strLtB as bs

/-- String comparison performed by the store when ordering a string column. -/
def sqlStrLt (a b : String) : Bool := strLtB a.data b.data

/-- Result of the query ordering by the first column descending and taking
the first row: the first stored row whose first-column value is maximal in
the store's lexicographic string order. -/
def selectLastByCol0 (db : List (List String)) : Option (List String) :=
  db.foldl (fun acc row =>
    match acc with
    | none => some row
    | some best =>
      if sqlStrLt best.headI row.headI then some row else some best)
    none

/-- Outcome of `check_and_clean`, carrying the database state it leaves
behind: success (after the delete-all and the commit), an assertion
failure (the function aborts before the delete), or a query error (the
ordered query returned no row or an empty row, so indexing it raised
before the delete). -/
inductive CheckOutcome where
  | ok (db : DbState (List String))
  | assertionFailed (db : DbState (List String))
  | queryError (db : DbState (List String))
deriving DecidableEq

/-- Model of `check_and_clean`: assert that the stored count equals
`timeit_repeat * timeit_number * number_of_rows`, assert that the last
column value of the first row ordered by the first column descending
equals the expected string, then delete all rows and commit. -/
def check_and_clean (db : DbState (List String))
    (number_of_rows number_of_cols timeit_number timeit_repeat : Nat) :
    CheckOutcome :=
  if db.visible.length = timeit_repeat * timeit_number * number_of_rows then
    match selectLastByCol0 db.visible with
    | none => .queryError db
    | some last_row =>
      match last_row.getLast? with
      | none => .queryError db
      | some last_row_val =>
        if last_row_val = expected_last_val number_of_rows number_of_cols then
          .ok ⟨[], []⟩
        else .assertionFailed db
  else .assertionFailed db

/-- Both assertions of `check_and_clean` hold of the database state. -/
def bothAssertionsHold (db : DbState (List String))
    (number_of_rows number_of_cols timeit_number timeit_repeat : Nat) : Prop :=
  db.visible.length = timeit_repeat * timeit_number * number_of_rows ∧
    ∃ row, selectLastByCol0 db.visible = some row ∧
      row.getLast? = some (expected_last_val number_of_rows number_of_cols)

/-- Rows generated by `benchmark` for the given geometry, with the pads
derived from the digit counts exactly as `benchmark` derives them. -/
def bench_rows (number_of_rows number_of_cols : Nat) :
    List (List (String × String)) :=
  generate_rows number_of_rows
    (columnNames number_of_cols (pad_of number_of_cols))
    (pad_of number_of_rows) (pad_of number_of_cols)

/-- Stored tuples after `k` invocations of `insert_values_params` on the
generated rows starting from the empty table, as one timing trial of
`benchmark` produces. -/
def bench_db (number_of_rows number_of_cols : Nat) (buffer_size : Int)
    (k : Nat) : DbState (List String) :=
  runParamsK k emptyDb
    ((bench_rows number_of_rows number_of_cols).map storedTuple) buffer_size

theorem natDigitsAux_append (fuel : Nat) :
    ∀ (n : Nat) (acc : List Char),
      natDigitsAux fuel n acc = natDigitsAux fuel n [] ++ acc := by
  induction fuel with
  | zero => intro n acc; simp [natDigitsAux]
  | succ fuel ih =>
    intro n acc
    by_cases h : n < 10
    · simp [natDigitsAux, h]
    · simp only [natDigitsAux, if_neg h]
      rw [ih (n / 10) (digitChar (n % 10) :: acc),
        ih (n / 10) [digitChar (n % 10)]]
      simp

theorem natDigitsAux_fuel (f1 : Nat) :
    ∀ (f2 n : Nat) (acc : List Char), n < f1 → n < f2 →
      natDigitsAux f1 n acc = natDigitsAux f2 n acc := by
  induction f1 with
  | zero => intro f2 n acc h1 _; omega
  | succ f1 ih =>
    intro f2 n acc h1 h2
    match f2, h2 with
    | f2 + 1, _ =>
      by_cases h : n < 10
      · simp [natDigitsAux, h]
      · simp only [natDigitsAux, if_neg h]
        have hd : n / 10 < n := Nat.div_lt_self (by omega) (by omega)
        exact ih f2 (n / 10) _ (by omega) (by omega)

/-- Recursive unfolding of `natStr`. -/
theorem natStr_eq (n : Nat) :
    natStr n = if n < 10 then [digitChar n] else natStr (n / 10) ++ [digitChar (n % 10)] := by
  by_cases h : n < 10
  · simp [natStr, natDigitsAux, h]
  · have hd : n / 10 < n := Nat.div_lt_self (by omega) (by omega)
    simp only [natStr, natDigitsAux, if_neg h, if_neg h]
    rw [natDigitsAux_fuel n (n / 10 + 1) (n / 10) _ (by omega) (by omega)]
    exact natDigitsAux_append _ _ _

theorem digitVal_digitChar (d : Nat) (h : d < 10) : digitVal (digitChar d) = d := by
  interval_cases d <;> decide

theorem digitsVal_append_singleton (l : List Char) (c : Char) :
    digitsVal (l ++ [c]) = 10 * digitsVal l + digitVal c := by
  simp [digitsVal, List.foldl_append]

theorem digitsVal_natStr (n : Nat) : digitsVal (natStr n) = n := by
  induction n using Nat.strong_induction_on with
  | _ n ih =>
    rw [natStr_eq]
    by_cases h : n < 10
    · simp only [if_pos h]
      simp [digitsVal, digitVal_digitChar n h]
    · have hd : n / 10 < n := Nat.div_lt_self (by omega) (by omega)
      simp only [if_neg h]
      rw [digitsVal_append_singleton, ih (n / 10) hd,
        digitVal_digitChar (n % 10) (by omega)]
      omega

theorem digitsVal_replicate_zero (k : Nat) (l : List Char) :
    digitsVal (List.replicate k '0' ++ l) = digitsVal l := by
  induction k with
  | zero => simp
  | succ k ih =>
    simp only [List.replicate_succ, List.cons_append]
    simpa [digitsVal, digitVal] using ih

theorem digitsVal_pyPad (width n : Nat) : digitsVal (pyPad width n) = n := by
  rw [pyPad, digitsVal_replicate_zero, digitsVal_natStr]

theorem pyPad_injective (width a b : Nat) (h : pyPad width a = pyPad width b) :
    a = b := by
  have := congrArg digitsVal h
  rwa [digitsVal_pyPad, digitsVal_pyPad] at this

theorem natStr_length_pos (n : Nat) : 0 < (natStr n).length := by
  rw [natStr_eq]
  by_cases h : n < 10 <;> simp [h]

theorem natStr_length_mono (n : Nat) : ∀ m, m ≤ n →
    (natStr m).length ≤ (natStr n).length := by
  induction n using Nat.strong_induction_on with
  | _ n ih =>
    intro m hmn
    by_cases hn : n < 10
    · rw [natStr_eq m, natStr_eq n, if_pos (by omega : m < 10), if_pos hn]
      simp
    · rw [natStr_eq n, if_neg hn]
      by_cases hm : m < 10
      · rw [natStr_eq m, if_pos hm]
        simp
      · rw [natStr_eq m, if_neg hm]
        have hd : n / 10 < n := Nat.div_lt_self (by omega) (by omega)
        have := ih (n / 10) hd (m / 10) (Nat.div_le_div_right hmn)
        simp only [List.length_append, List.length_singleton]
        omega

theorem pyPad_length (width n : Nat) :
    (pyPad width n).length = max width (natStr n).length := by
  have := natStr_length_pos n
  simp only [pyPad, List.length_append, List.length_replicate]
  omega

theorem colName_injective (col_pad : Nat) :
    Function.Injective (colName col_pad) := by
  intro a b h
  have hdata := congrArg String.data h
  simp only [colName, pyPadStr, String.data_append] at hdata
  have : pyPad col_pad a = pyPad col_pad b := by
    exact List.append_cancel_left hdata
  exact pyPad_injective col_pad a b this

theorem columnNames_length (n col_pad : Nat) :
    (columnNames n col_pad).length = n := by
  simp [columnNames]

theorem columnNames_nodup (n col_pad : Nat) :
    (columnNames n col_pad).Nodup :=
  (List.nodup_range n).map (colName_injective col_pad)

theorem generate_rows_length (number_of_rows : Nat) (columns : List String)
    (row_pad col_pad : Nat) :
    (generate_rows number_of_rows columns row_pad col_pad).length =
      number_of_rows := by
  simp [generate_rows]

/-- When the columns are the generated column names, each generated row is
the list of (name, value) pairs indexed over the column range. -/
theorem generate_rows_eq (number_of_rows number_of_cols row_pad col_pad : Nat) :
    generate_rows number_of_rows (columnNames number_of_cols col_pad)
        row_pad col_pad =
      (List.range number_of_rows).map (fun r =>
        (List.range number_of_cols).map (fun c =>
          (colName col_pad c, cellValue row_pad col_pad r c))) := by
  have hz : List.zip (List.range number_of_cols)
      ((List.range number_of_cols).map (colName col_pad)) =
      (List.range number_of_cols).map (fun i => (i, colName col_pad i)) := by
    have := List.zip_map' (fun i : Nat => i) (colName col_pad)
      (List.range number_of_cols)
    simpa using this
  simp [generate_rows, columnNames, hz, List.map_map, Function.comp]

theorem generate_rows_keys (number_of_rows number_of_cols row_pad col_pad : Nat)
    (row : List (String × String))
    (hrow : row ∈ generate_rows number_of_rows
      (columnNames number_of_cols col_pad) row_pad col_pad) :
    row.map Prod.fst = columnNames number_of_cols col_pad := by
  rw [generate_rows_eq] at hrow
  rcases List.mem_map.mp hrow with ⟨r, _, hr⟩
  rw [← hr]
  simp [columnNames, List.map_map, Function.comp]

theorem manyLoop_eq_relabel {α : Type} (buffer_size : Int) :
    ∀ (rows buffer : List α),
      manyLoop buffer_size rows buffer =
        (paramsLoop buffer_size rows buffer).map Event.relabel := by
  intro rows
  induction rows with
  | nil =>
    intro buffer
    by_cases hb : buffer.length > 0 <;>
      simp [manyLoop, paramsLoop, hb, Event.relabel]
  | cons row rest ih =>
    intro buffer
    simp only [manyLoop, paramsLoop]
    split
    · rename_i h
      simp [h, Event.relabel, ih]
    · rename_i h
      simp [h, ih]

theorem applyEvent_relabel {α : Type} (s : DbState α) (e : Event α) :
    applyEvent s e.relabel = applyEvent s e := by
  cases e <;> rfl

theorem runEvents_relabel {α : Type} (evs : List (Event α)) :
    ∀ s : DbState α, runEvents s (evs.map Event.relabel) = runEvents s evs := by
  induction evs with
  | nil => intro s; rfl
  | cons e evs ih =>
    intro s
    simp only [List.map_cons, runEvents, List.foldl_cons, applyEvent_relabel]
    exact ih (applyEvent s e)

theorem runEvents_paramsLoop {α : Type} (buffer_size : Int) :
    ∀ (rows buffer : List α) (s : DbState α),
      runEvents s (paramsLoop buffer_size rows buffer) =
        ⟨s.committed ++ s.pending ++ buffer ++ rows, []⟩ := by
  intro rows
  induction rows with
  | nil =>
    intro buffer s
    by_cases hb : buffer.length > 0
    · simp [paramsLoop, hb, runEvents, applyEvent]
    · have : buffer = [] := by
        cases buffer
        · rfl
        · simp at hb
      subst this
      simp [paramsLoop, runEvents, applyEvent]
  | cons row rest ih =>
    intro buffer s
    by_cases hc : ((buffer ++ [row]).length : Int) ≥ buffer_size
    · simp only [paramsLoop, if_pos hc, runEvents, List.foldl_cons]
      rw [show List.foldl applyEvent
          (applyEvent s (Event.flushValues (buffer ++ [row])))
          (paramsLoop buffer_size rest []) =
        runEvents (applyEvent s (Event.flushValues (buffer ++ [row])))
          (paramsLoop buffer_size rest []) from rfl]
      rw [ih [] (applyEvent s (Event.flushValues (buffer ++ [row])))]
      simp [applyEvent]
    · simp only [paramsLoop, if_neg hc]
      rw [ih (buffer ++ [row]) s]
      simp

/-- One invocation of `insert_values_params` appends exactly the input rows
to the visible content and commits everything. -/
theorem runParams_eq {α : Type} (s : DbState α) (rows : List α)
    (buffer_size : Int) :
    runParams s rows buffer_size = ⟨s.visible ++ rows, []⟩ := by
  have := runEvents_paramsLoop buffer_size rows [] s
  simpa [runParams, insert_values_params, DbState.visible] using this

/-- One invocation of `insert_values_executemany` appends exactly the input
rows to the visible content and commits everything. -/
theorem runMany_eq {α : Type} (s : DbState α) (rows : List α)
    (buffer_size : Int) :
    runMany s rows buffer_size = ⟨s.visible ++ rows, []⟩ := by
  rw [runMany, insert_values_executemany, manyLoop_eq_relabel,
    runEvents_relabel]
  exact runParams_eq s rows buffer_size

theorem runParamsK_visible {α : Type} (rows : List α) (buffer_size : Int) :
    ∀ (k : Nat) (s : DbState α),
      (runParamsK k s rows buffer_size).visible.length =
        s.visible.length + k * rows.length := by
  intro k
  induction k with
  | zero => intro s; simp [runParamsK]
  | succ k ih =>
    intro s
    simp only [runParamsK]
    rw [ih, runParams_eq]
    simp [DbState.visible]
    ring

theorem runManyK_visible {α : Type} (rows : List α) (buffer_size : Int) :
    ∀ (k : Nat) (s : DbState α),
      (runManyK k s rows buffer_size).visible.length =
        s.visible.length + k * rows.length := by
  intro k
  induction k with
  | zero => intro s; simp [runManyK]
  | succ k ih =>
    intro s
    simp only [runManyK]
    rw [ih, runMany_eq]
    simp [DbState.visible]
    ring

/-- Shape of the trace of `insert_values_params` when `buffer_size ≥ 1` and
the carried buffer is strictly below `buffer_size`: a sequence of flushes
followed by exactly one commit, the flushed chunks concatenate to the carried
buffer followed by the input rows, every flushed chunk has at most
`buffer_size` rows, and every flushed chunk except possibly the last has
exactly `buffer_size` rows. -/
theorem paramsLoop_chunks {α : Type} (buffer_size : Int)
    (hbs : 1 ≤ buffer_size) :
    ∀ (rows buffer : List α), (buffer.length : Int) < buffer_size →
      ∃ bufs : List (List α),
        paramsLoop buffer_size rows buffer =
            bufs.map Event.flushValues ++ [Event.commit] ∧
          bufs.flatten = buffer ++ rows ∧
          (∀ b ∈ bufs, (b.length : Int) ≤ buffer_size) ∧
          (∀ i : Nat, ∀ h : i + 1 < bufs.length,
            ((bufs.get ⟨i, Nat.lt_of_succ_lt h⟩).length : Int) = buffer_size) := by
  intro rows
  induction rows with
  | nil =>
    intro buffer h
    by_cases hb : buffer.length > 0
    · refine ⟨[buffer], by simp [paramsLoop, hb], by simp, ?_, ?_⟩
      · intro b hmem
        rw [List.mem_singleton] at hmem
        subst hmem
        omega
      · intro i hi
        simp at hi
    · have : buffer = [] := by
        cases buffer
        · rfl
        · simp at hb
      subst this
      exact ⟨[], by simp [paramsLoop], by simp, by simp, by simp⟩
  | cons row rest ih =>
    intro buffer h
    by_cases hc : ((buffer ++ [row]).length : Int) ≥ buffer_size
    · have hlen : ((buffer ++ [row]).length : Int) = buffer_size := by
        simp only [List.length_append, List.length_singleton] at hc ⊢
        push_cast at hc ⊢
        omega
      obtain ⟨bufs, htr, hjoin, hle, hfull⟩ :=
        ih [] (by simpa using hbs)
      refine ⟨(buffer ++ [row]) :: bufs, ?_, ?_, ?_, ?_⟩
      · simp only [paramsLoop, if_pos hc, htr]
        simp
      · simp [hjoin]
      · intro b hmem
        rcases List.mem_cons.mp hmem with hb | hb
        · subst hb; omega
        · exact hle b hb
      · intro i hi
        match i with
        | 0 => simpa using hlen
        | j + 1 =>
          simp only [List.length_cons] at hi
          have hj : j + 1 < bufs.length := by omega
          simpa using hfull j hj
    · have hlt : ((buffer ++ [row]).length : Int) < buffer_size := by omega
      obtain ⟨bufs, htr, hjoin, hle, hfull⟩ := ih (buffer ++ [row]) hlt
      refine ⟨bufs, ?_, ?_, hle, hfull⟩
      · simp only [paramsLoop, if_neg hc, htr]
      · simp [hjoin]

/-- With a nonpositive buffer size every append immediately reaches the
flush condition: the trace is one singleton flush per row, then the commit. -/
theorem paramsLoop_nonpos {α : Type} (buffer_size : Int)
    (hbs : buffer_size ≤ 0) :
    ∀ rows : List α,
      paramsLoop buffer_size rows [] =
        rows.map (fun r => Event.flushValues [r]) ++ [Event.commit] := by
  intro rows
  induction rows with
  | nil => simp [paramsLoop]
  | cons row rest ih =>
    have hc : ((([] : List α) ++ [row]).length : Int) ≥ buffer_size := by
      simp
      omega
    simp only [paramsLoop, List.nil_append] at ih ⊢
    rw [if_pos (by simpa using hc)]
    simp [ih]

theorem pyPadStr_length (width n : Nat) :
    (pyPadStr width n).length = max width (natStr n).length := by
  have h : (pyPadStr width n).length = (pyPad width n).length := rfl
  rw [h, pyPad_length]

/-- Claim C1: with buffer size at least 1, one invocation of either
insertion strategy inserts exactly the input rows (hence exactly
`rows.length` many); after `k` invocations starting from an empty table the
stored row count equals `k * rows.length`; in particular, on the generated
rows, after `timeit_repeat * timeit_number` invocations the stored count
equals `timeit_repeat * timeit_number * number_of_rows`, the count asserted
by `check_and_clean`. -/
theorem claim_C1 {α : Type} (rows : List α) (buffer_size : Int)
    (hbs : 1 ≤ buffer_size) :
    (runParams emptyDb rows buffer_size).visible = rows ∧
    (runMany emptyDb rows buffer_size).visible = rows ∧
    (∀ k : Nat, (runParamsK k emptyDb rows buffer_size).visible.length =
      k * rows.length) ∧
    (∀ k : Nat, (runManyK k emptyDb rows buffer_size).visible.length =
      k * rows.length) ∧
    (∀ number_of_rows number_of_cols timeit_number timeit_repeat : Nat,
      (runParamsK (timeit_repeat * timeit_number) emptyDb
          ((bench_rows number_of_rows number_of_cols).map storedTuple)
          buffer_size).visible.length =
        timeit_repeat * timeit_number * number_of_rows) ∧
    (∀ number_of_rows number_of_cols timeit_number timeit_repeat : Nat,
      (runManyK (timeit_repeat * timeit_number) emptyDb
          ((bench_rows number_of_rows number_of_cols).map storedTuple)
          buffer_size).visible.length =
        timeit_repeat * timeit_number * number_of_rows) := by
  refine ⟨?_, ?_, ?_, ?_, ?_, ?_⟩
  · rw [runParams_eq]
    simp [emptyDb, DbState.visible]
  · rw [runMany_eq]
    simp [emptyDb, DbState.visible]
  · intro k
    rw [runParamsK_visible]
    simp [emptyDb, DbState.visible]
  · intro k
    rw [runManyK_visible]
    simp [emptyDb, DbState.visible]
  · intro number_of_rows number_of_cols timeit_number timeit_repeat
    rw [runParamsK_visible]
    simp only [List.length_map, bench_rows, generate_rows_length, emptyDb,
      DbState.visible, List.append_nil, List.length_nil]
    ring
  · intro number_of_rows number_of_cols timeit_number timeit_repeat
    rw [runManyK_visible]
    simp only [List.length_map, bench_rows, generate_rows_length, emptyDb,
      DbState.visible, List.append_nil, List.length_nil]
    ring

theorem claim_C1_witness :
    (1 : Int) ≤ 2 ∧
    (runParams emptyDb [0, 1, 2] 2).visible = [0, 1, 2] :=
  ⟨by decide, (claim_C1 [0, 1, 2] 2 (by decide)).1⟩

/-- Claim C2: on identical input rows and identical buffer size, the two
insertion strategies leave the database in identical final states (the same
rows stored, all committed); the choice of strategy never changes the
stored data. -/
theorem claim_C2 {α : Type} (s : DbState α) (rows : List α)
    (buffer_size : Int) :
    runParams s rows buffer_size = runMany s rows buffer_size := by
  rw [runParams_eq, runMany_eq]

/-- Claim C4: with buffer size at least 1, each strategy's trace is a list
of flushes followed by exactly one commit; the flushed chunks concatenate
to exactly the input rows (so the buffer restarts empty after each flush),
no flush carries more than `buffer_size` rows, and every flush except
possibly the final remainder carries exactly `buffer_size` rows. -/
theorem claim_C4 {α : Type} (rows : List α) (buffer_size : Int)
    (hbs : 1 ≤ buffer_size) :
    (∃ bufs : List (List α),
      insert_values_params rows buffer_size =
          bufs.map Event.flushValues ++ [Event.commit] ∧
        bufs.flatten = rows ∧
        (∀ b ∈ bufs, (b.length : Int) ≤ buffer_size) ∧
        (∀ i : Nat, ∀ h : i + 1 < bufs.length,
          ((bufs.get ⟨i, Nat.lt_of_succ_lt h⟩).length : Int) = buffer_size)) ∧
    (∃ bufs : List (List α),
      insert_values_executemany rows buffer_size =
          bufs.map Event.flushMany ++ [Event.commit] ∧
        bufs.flatten = rows ∧
        (∀ b ∈ bufs, (b.length : Int) ≤ buffer_size) ∧
        (∀ i : Nat, ∀ h : i + 1 < bufs.length,
          ((bufs.get ⟨i, Nat.lt_of_succ_lt h⟩).length : Int) = buffer_size)) := by
  obtain ⟨bufs, htr, hjoin, hle, hfull⟩ :=
    paramsLoop_chunks buffer_size hbs rows [] (by simpa using hbs)
  constructor
  · exact ⟨bufs, by simpa [insert_values_params] using htr,
      by simpa using hjoin, hle, hfull⟩
  · refine ⟨bufs, ?_, by simpa using hjoin, hle, hfull⟩
    rw [insert_values_executemany, manyLoop_eq_relabel, htr]
    simp [Event.relabel, List.map_map, Function.comp]

theorem claim_C4_witness :
    (1 : Int) ≤ 2 ∧
    ∃ bufs : List (List Nat),
      insert_values_params [1, 2, 3] 2 =
          bufs.map Event.flushValues ++ [Event.commit] ∧
        bufs.flatten = [1, 2, 3] ∧
        (∀ b ∈ bufs, (b.length : Int) ≤ 2) ∧
        (∀ i : Nat, ∀ h : i + 1 < bufs.length,
          ((bufs.get ⟨i, Nat.lt_of_succ_lt h⟩).length : Int) = 2) :=
  ⟨by decide, (claim_C4 [1, 2, 3] 2 (by decide)).1⟩

/-- Claim C10: with a nonpositive buffer size both strategies still insert
every input row exactly once, via one singleton flush per row (each append
immediately satisfies the flush condition), and the stored content after
one invocation from the empty table is exactly the input rows. -/
theorem claim_C10 {α : Type} (rows : List α) (buffer_size : Int)
    (hbs : buffer_size ≤ 0) :
    insert_values_params rows buffer_size =
        rows.map (fun r => Event.flushValues [r]) ++ [Event.commit] ∧
      insert_values_executemany rows buffer_size =
        rows.map (fun r => Event.flushMany [r]) ++ [Event.commit] ∧
      (runParams emptyDb rows buffer_size).visible = rows ∧
      (runMany emptyDb rows buffer_size).visible = rows := by
  refine ⟨paramsLoop_nonpos buffer_size hbs rows, ?_, ?_, ?_⟩
  · rw [insert_values_executemany, manyLoop_eq_relabel,
      paramsLoop_nonpos buffer_size hbs rows]
    simp [Event.relabel, List.map_map, Function.comp]
  · rw [runParams_eq]
    simp [emptyDb, DbState.visible]
  · rw [runMany_eq]
    simp [emptyDb, DbState.visible]

theorem claim_C10_witness :
    (0 : Int) ≤ 0 ∧
    (runParams emptyDb [5, 6] 0).visible = [5, 6] :=
  ⟨by decide, (claim_C10 [5, 6] 0 (by decide)).2.2.1⟩

/-- Claim C5: the benchmark creates exactly `number_of_cols` columns whose
names (`col` plus zero-padded index) are pairwise distinct, and generates
exactly `number_of_rows` rows, each mapping the column names, in order and
each exactly once, to one value. -/
theorem claim_C5 (number_of_rows number_of_cols col_pad row_pad : Nat)
    (hc : 1 ≤ number_of_cols) :
    (columnNames number_of_cols col_pad).length = number_of_cols ∧
    (columnNames number_of_cols col_pad).Nodup ∧
    (setup_db number_of_cols col_pad row_pad).map Prod.fst =
      columnNames number_of_cols col_pad ∧
    (generate_rows number_of_rows (columnNames number_of_cols col_pad)
      row_pad col_pad).length = number_of_rows ∧
    (∀ row ∈ generate_rows number_of_rows
        (columnNames number_of_cols col_pad) row_pad col_pad,
      row.map Prod.fst = columnNames number_of_cols col_pad) := by
  refine ⟨columnNames_length _ _, columnNames_nodup _ _, ?_,
    generate_rows_length _ _ _ _, ?_⟩
  · simp [setup_db, columnNames, List.map_map, Function.comp]
  · intro row hrow
    exact generate_rows_keys number_of_rows number_of_cols row_pad col_pad
      row hrow

theorem claim_C5_witness :
    1 ≤ 2 ∧ (columnNames 2 1).Nodup :=
  ⟨by decide, (claim_C5 2 2 1 0 (by decide)).2.1⟩

/-- Claim C6: row generation is deterministic and pure. In this embedding
it is a function of its arguments alone, so two evaluations on identical
inputs are the same term; moreover the output is the explicit closed-form
sequence determined by the configuration, exhibiting independence of any
hidden state. -/
theorem claim_C6 (number_of_rows number_of_cols row_pad col_pad : Nat) :
    generate_rows number_of_rows (columnNames number_of_cols col_pad)
        row_pad col_pad =
      generate_rows number_of_rows (columnNames number_of_cols col_pad)
        row_pad col_pad ∧
    generate_rows number_of_rows (columnNames number_of_cols col_pad)
        row_pad col_pad =
      (List.range number_of_rows).map (fun r =>
        (List.range number_of_cols).map (fun c =>
          (colName col_pad c, cellValue row_pad col_pad r c))) :=
  ⟨rfl, generate_rows_eq number_of_rows number_of_cols row_pad col_pad⟩

/-- Claim C9 fails as stated: at `row_count = column_count = 11` the cell
value of row 10, column 10 is `row10_col10`, of length 11, while the
declared column width `col_pad + row_pad + 8` is 10. -/
theorem claim_C9_counterexample :
    10 < 11 ∧
    ¬ ((cellValue (pad_of 11) (pad_of 11) 10 10).length ≤
        columnWidth (pad_of 11) (pad_of 11)) := by
  decide

/-- Claim C9 amended: every generated cell value has length at most
`col_pad + row_pad + 9`, one more than the declared fixed column width
(the bound `col_pad + row_pad + 8` of the claim is exceeded by exactly one
when both indices need one digit more than their pad). -/
theorem claim_C9_amended (number_of_rows number_of_cols r c : Nat)
    (hr : r < number_of_rows) (hc : c < number_of_cols) :
    (cellValue (pad_of number_of_rows) (pad_of number_of_cols) r c).length ≤
      columnWidth (pad_of number_of_cols) (pad_of number_of_rows) + 1 := by
  have hrall : (natStr r).length ≤ (natStr number_of_rows).length :=
    natStr_length_mono number_of_rows r (by omega)
  have hcall : (natStr c).length ≤ (natStr number_of_cols).length :=
    natStr_length_mono number_of_cols c (by omega)
  have hrpos := natStr_length_pos number_of_rows
  have hcpos := natStr_length_pos number_of_cols
  have hlen : (cellValue (pad_of number_of_rows) (pad_of number_of_cols)
      r c).length =
      3 + (pyPadStr (pad_of number_of_rows) r).length +
        4 + (pyPadStr (pad_of number_of_cols) c).length := by
    simp only [cellValue, String.length_append]
    rfl
  rw [hlen, pyPadStr_length, pyPadStr_length]
  simp only [columnWidth, pad_of]
  omega

theorem claim_C9_amended_witness :
    10 < 11 ∧
    (cellValue (pad_of 11) (pad_of 11) 10 10).length ≤
      columnWidth (pad_of 11) (pad_of 11) + 1 :=
  ⟨by decide, claim_C9_amended 11 11 10 10 (by decide) (by decide)⟩

/-- Claim C7: `check_and_clean` reaches the delete-all and the final commit
(outcome `ok` with the emptied database) exactly when both assertions hold;
in every other case it aborts before the delete and the stored rows are
returned unchanged (outcome `assertionFailed` or `queryError` carrying the
input database state). -/
theorem claim_C7 (db : DbState (List String))
    (number_of_rows number_of_cols timeit_number timeit_repeat : Nat) :
    (check_and_clean db number_of_rows number_of_cols timeit_number
        timeit_repeat = CheckOutcome.ok ⟨[], []⟩ ↔
      bothAssertionsHold db number_of_rows number_of_cols timeit_number
        timeit_repeat) ∧
    (check_and_clean db number_of_rows number_of_cols timeit_number
        timeit_repeat = CheckOutcome.ok ⟨[], []⟩ ∨
      check_and_clean db number_of_rows number_of_cols timeit_number
        timeit_repeat = CheckOutcome.assertionFailed db ∨
      check_and_clean db number_of_rows number_of_cols timeit_number
        timeit_repeat = CheckOutcome.queryError db) := by
  by_cases hcount : db.visible.length =
      timeit_repeat * timeit_number * number_of_rows
  · cases hsel : selectLastByCol0 db.visible with
    | none =>
      constructor
      · simp [check_and_clean, hcount, hsel, bothAssertionsHold]
      · right; right
        simp [check_and_clean, hcount, hsel]
    | some last_row =>
      cases hlast : last_row.getLast? with
      | none =>
        constructor
        · simp [check_and_clean, hcount, hsel, hlast, bothAssertionsHold]
        · right; right
          simp [check_and_clean, hcount, hsel, hlast]
      | some v =>
        by_cases hv : v = expected_last_val number_of_rows number_of_cols
        · constructor
          · simp [check_and_clean, hcount, hsel, hlast, hv,
              bothAssertionsHold]
          · left
            simp [check_and_clean, hcount, hsel, hlast, hv]
        · constructor
          · simp [check_and_clean, hcount, hsel, hlast, hv,
              bothAssertionsHold]
          · right; left
            simp [check_and_clean, hcount, hsel, hlast, hv]
  · constructor
    · simp [check_and_clean, hcount, bothAssertionsHold]
    · right; left
      simp [check_and_clean, hcount]

/-- Claim C8: whenever `check_and_clean` succeeds (both assertions hold and
the delete-all plus commit run), the database state it leaves behind is
empty. -/
theorem claim_C8 (db : DbState (List String))
    (number_of_rows number_of_cols timeit_number timeit_repeat : Nat)
    (db2 : DbState (List String))
    (h : check_and_clean db number_of_rows number_of_cols timeit_number
      timeit_repeat = CheckOutcome.ok db2) :
    db2.visible = [] ∧ db2.visible.length = 0 := by
  unfold check_and_clean at h
  split at h
  · split at h
    · cases h
    · split at h
      · cases h
      · split at h
        · injection h with h
          subst h
          exact ⟨rfl, rfl⟩
        · cases h
  · cases h

theorem claim_C8_witness :
    check_and_clean ⟨[["row0_col0"]], []⟩ 1 1 1 1 =
      CheckOutcome.ok ⟨[], []⟩ ∧
    (DbState.mk ([] : List (List String)) []).visible = [] ∧
    (DbState.mk ([] : List (List String)) []).visible.length = 0 :=
  ⟨by decide, claim_C8 ⟨[["row0_col0"]], []⟩ 1 1 1 1 ⟨[], []⟩ (by decide)⟩

/-- Claim C3 fails on the code: at `number_of_rows = 11` and
`number_of_cols = 1` with one timed invocation, the stored row selected by
ordering on the first column descending is the row of index 9, not of
index 10, because the pad width is one digit too small and `9` sorts after
`10` lexicographically; its last column value is `row9_col0` while the
code's own assertion expects `row10_col0`, so `check_and_clean` aborts on
its second assertion. -/
theorem claim_C3_code_bug :
    selectLastByCol0 (bench_db 11 1 1000 1).visible = some ["row9_col0"] ∧
    expected_last_val 11 1 = "row10_col0" ∧
    check_and_clean (bench_db 11 1 1000 1) 11 1 1 1 =
      CheckOutcome.assertionFailed (bench_db 11 1 1000 1) := by
  decide

end Bench
